import Mathlib

/-!
Verification development for the Salam monitoring platform's NFS log
scanner (`internal/nfs/scanner.go`).

The scanner walks a `source/date/workflow/artifact` directory hierarchy,
classifies the three recognized artifact files (`info.log`, `error.log`,
`run.log`) of each workflow directory, derives a per-workflow status, and
supports keyword search over the scanned artifacts.

The embedding models the filesystem as an explicit tree value:

* a file is either missing, present-but-unopenable, or readable with a
  list of lines (mirroring `bufio.Scanner` line iteration, without the
  trailing newlines);
* a date partition of a source is missing (`os.IsNotExist` on `Stat`),
  unlistable (`os.ReadDir` fails), or present with a list of entries;
* the root is unlistable (`os.ReadDir` fails) or a list of entries;
* non-directory entries carry only a name, since the Go code skips them.

Strings are compared the way Go compares them: byte-wise lexicographic,
which on well-formed UTF-8 coincides with code-point lexicographic order
on the decoded character list, modelled here by `charListLt`.
`strings.Contains` is modelled by `goContains` (substring on character
lists, again equivalent to Go's byte-level test on well-formed UTF-8).
`strings.ToLower` / `strings.TrimSpace` are modelled by `goToLower` /
`goTrimSpace`; these agree with Go on ASCII content, which is all the
fixed patterns and filenames involved use.

`sort.Slice` is modelled by `List.mergeSort` on the same comparison
closure; the claims only rely on sortedness and membership of the sorted
output, which hold for any correct sort.
-/

namespace Salam

/-- One file's data as observed by the scanner: its lines (as produced by
`bufio.Scanner`), its size and its modification time (`os.Stat`). -/
structure FileData where
  lines : List String
  size : Int
  modTime : Nat
deriving DecidableEq

/-- State of one artifact path: absent (`os.Stat` reports not-exist),
present but failing to open/read, or readable. -/
inductive FileNode where
  | missing : FileNode
  | unreadable : FileNode
  | ok : FileData → FileNode
deriving DecidableEq

/-- One workflow directory: its name and its directory entries that are
plain files, keyed by filename. -/
structure WorkflowDir where
  name : String
  files : List (String × FileNode)
deriving DecidableEq

/-- A directory entry below a date partition: either a workflow directory
or a plain file (which `getWorkflowDirectories` ignores). -/
inductive DateEntry where
  | dir : WorkflowDir → DateEntry
  | file : String → DateEntry
deriving DecidableEq

/-- State of one `source/date` partition directory. -/
inductive DateDirState where
  | missing : DateDirState
  | unlistable : DateDirState
  | present : List DateEntry → DateDirState
deriving DecidableEq

/-- One source directory: its name and its date partitions. A date that
does not occur in `dates` is missing. -/
structure SourceDir where
  name : String
  dates : List (String × DateDirState)
deriving DecidableEq

/-- A directory entry below the NFS root: a source directory or a plain
file (which `getSourceDirectories` ignores). -/
inductive RootEntry where
  | dir : SourceDir → RootEntry
  | file : String → RootEntry
deriving DecidableEq

/-- The NFS root: unlistable (`os.ReadDir` fails) or a list of entries. -/
inductive Root where
  | unlistable : Root
  | ok : List RootEntry → Root
deriving DecidableEq

/-- `LogEntry` from `scanner.go`. -/
structure LogEntry where
  source : String
  date : String
  workflow : String
  logType : String
  content : String
  hasErrors : Bool
  filePath : String
  size : Int
  modTime : Nat
deriving DecidableEq

/-- `WorkflowSummary` from `scanner.go`. -/
structure WorkflowSummary where
  source : String
  date : String
  workflow : String
  logs : List LogEntry
  hasErrors : Bool
  status : String
deriving DecidableEq

/-- `filepath.Join` on already-clean relative components. -/
def pathJoin (parts : List String) : String :=
  String.intercalate "/" parts

/-- Lexicographic order on character lists: the Go byte-wise string
comparison `<` decoded to characters. -/
def charListLt : List Char → List Char → Bool
  | _, [] => false
  | [], _ :: _ => true
  | a :: as, b :: bs => decide (a < b) || (a == b && charListLt as bs)

/-- Go's `s1 < s2` on strings. -/
def goStringLt (a b : String) : Bool :=
  charListLt a.data b.data

/-- `needle.isPrefixOf hay` on character lists, written out. -/
def hasPrefixList : List Char → List Char → Bool
  | [], _ => true
  | _ :: _, [] => false
  | a :: as, b :: bs => a == b && hasPrefixList as bs

/-- Substring test on character lists. -/
def hasSubstrList (needle : List Char) : List Char → Bool
  | [] => hasPrefixList needle []
  | l@(_ :: t) => hasPrefixList needle l || hasSubstrList needle t

/-- Go's `strings.Contains s sub`. -/
def goContains (s sub : String) : Bool :=
  hasSubstrList sub.data s.data

/-- Go's `strings.ToLower`, which lower-cases rune by rune; as with the
other string primitives, ASCII content behaves identically in Go and
here. -/
def goToLower (s : String) : String :=
  ⟨s.data.map Char.toLower⟩

/-- Go's `strings.TrimSpace`: strip leading and trailing whitespace. -/
def goTrimSpace (s : String) : String :=
  ⟨((s.data.dropWhile Char.isWhitespace).reverse.dropWhile
      Char.isWhitespace).reverse⟩

/-- The fixed pattern set of `detectErrors`. -/
def errorPatterns : List String :=
  ["ERROR", "FATAL", "Exception", "Failed", "failure", "FAILED", "error:", "Error:"]

/-- `detectErrors` from `scanner.go`, applied to the opened file's lines.
For `error.log` the Go code calls `scanner.Scan()` once and tests
`len(strings.TrimSpace(scanner.Text())) > 0`; on an empty file `Scan`
fails and `Text()` is `""`, which `headD ""` reproduces. For the other
kinds it scans every line against `errorPatterns`, short-circuiting on
the first match. Open failures are handled by the caller
(`FileNode.unreadable`), so the embedding takes the lines directly. -/
def detectErrors (lines : List String) (logType : String) : Bool :=
  if logType == "error.log" then
    !(goTrimSpace (lines.headD "") == "")
  else
    lines.any (fun line => errorPatterns.any (fun pattern => goContains line pattern))

/-- `scanLogFile` from `scanner.go` on a readable file. -/
def scanLogFile (nfsRoot source date workflow logType : String)
    (data : FileData) : LogEntry :=
  { source := source
    date := date
    workflow := workflow
    logType := logType
    content := ""
    hasErrors := detectErrors data.lines logType
    filePath := pathJoin [nfsRoot, source, date, workflow, logType]
    size := data.size
    modTime := data.modTime }

/-- The fixed artifact filenames checked by `scanWorkflow`, in order. -/
def logTypes : List String :=
  ["info.log", "error.log", "run.log"]

/-- Resolve a filename inside a workflow directory; a name that is not
listed is a missing file. -/
def lookupFile (files : List (String × FileNode)) (fname : String) : FileNode :=
  match files.find? (fun p => p.1 == fname) with
  | some p => p.2
  | none => FileNode.missing

/-- Loop body of `scanWorkflow`: skip a missing artifact, skip (after
logging) an artifact whose `scanLogFile` fails, otherwise append the
entry and fold its error flag into the summary's flag. -/
def scanStep (nfsRoot source date wname : String)
    (files : List (String × FileNode))
    (acc : List LogEntry × Bool) (logType : String) : List LogEntry × Bool :=
  match lookupFile files logType with
  | FileNode.missing => acc
  | FileNode.unreadable => acc
  | FileNode.ok data =>
      let entry := scanLogFile nfsRoot source date wname logType data
      (acc.1 ++ [entry], acc.2 || entry.hasErrors)

/-- `determineWorkflowStatus` from `scanner.go`. -/
def determineWorkflowStatus (summary : WorkflowSummary) : String :=
  if summary.hasErrors then "Failed"
  else if summary.logs.length == 0 then "No Logs"
  else
    let hasRunLog := summary.logs.any (fun log => log.logType == "run.log")
    if hasRunLog && !summary.hasErrors then "Completed"
    else "In Progress"

/-- `scanWorkflow` from `scanner.go`: fold the three artifact names,
then overwrite the initial `"Unknown"` status with the derived one.
The Go function's error return is always `nil`. -/
def scanWorkflow (nfsRoot source date : String) (w : WorkflowDir) : WorkflowSummary :=
  let r := logTypes.foldl (scanStep nfsRoot source date w.name w.files) ([], false)
  let summary : WorkflowSummary :=
    { source := source, date := date, workflow := w.name
      logs := r.1, hasErrors := r.2, status := "Unknown" }
  { summary with status := determineWorkflowStatus summary }

/-- Resolve a date partition of a source; a date not listed is missing. -/
def lookupDate (dates : List (String × DateDirState)) (date : String) : DateDirState :=
  match dates.find? (fun p => p.1 == date) with
  | some p => p.2
  | none => DateDirState.missing

/-- `getWorkflowDirectories`: keep only directory entries. -/
def dateDirEntries (entries : List DateEntry) : List WorkflowDir :=
  entries.filterMap (fun e =>
    match e with
    | DateEntry.dir w => some w
    | DateEntry.file _ => none)

/-- `scanSourceForDate` from `scanner.go`: a missing date partition is an
empty result, a failing `ReadDir` is an error, otherwise every workflow
directory is scanned (`scanWorkflow` never fails, so none is skipped). -/
def scanSourceForDate (nfsRoot : String) (src : SourceDir) (date : String) :
    Except String (List WorkflowSummary) :=
  match lookupDate src.dates date with
  | DateDirState.missing => Except.ok []
  | DateDirState.unlistable =>
      Except.error ("read dir failed: " ++ pathJoin [nfsRoot, src.name, date])
  | DateDirState.present entries =>
      Except.ok ((dateDirEntries entries).map (scanWorkflow nfsRoot src.name date))

/-- `getSourceDirectories` on a listable root: keep only directories. -/
def sourceDirs (entries : List RootEntry) : List SourceDir :=
  entries.filterMap (fun e =>
    match e with
    | RootEntry.dir s => some s
    | RootEntry.file _ => none)

/-- The `sort.Slice` comparison closure of `ScanLogsForDate`. -/
def summaryLess (a b : WorkflowSummary) : Bool :=
  if a.source != b.source then goStringLt a.source b.source
  else goStringLt a.workflow b.workflow

/-- The non-strict order induced by `summaryLess`, used by the sort. -/
def summaryLE (a b : WorkflowSummary) : Bool :=
  !(summaryLess b a)

/-- The final sort of `ScanLogsForDate`. -/
def sortSummaries (l : List WorkflowSummary) : List WorkflowSummary :=
  l.mergeSort summaryLE

/-- Per-source loop body of `ScanLogsForDate`: a failing source is logged
and skipped, a succeeding one has its summaries appended. -/
def sourceStep (nfsRoot date : String)
    (acc : List WorkflowSummary) (src : SourceDir) : List WorkflowSummary :=
  match scanSourceForDate nfsRoot src date with
  | Except.error _ => acc
  | Except.ok ss => acc ++ ss

/-- `ScanLogsForDate` from `scanner.go`. -/
def ScanLogsForDate (nfsRoot : String) (root : Root) (date : String) :
    Except String (List WorkflowSummary) :=
  match root with
  | Root.unlistable => Except.error "failed to get source directories"
  | Root.ok entries =>
      let summaries := (sourceDirs entries).foldl (sourceStep nfsRoot date) []
      Except.ok (sortSummaries summaries)

/-- All (path, node) pairs of files reachable below a listable root, with
the same `filepath.Join` path construction the scanner uses. Resolving a
path against the tree models `os.Open` on that path. -/
def allFiles (nfsRoot : String) (entries : List RootEntry) : List (String × FileNode) :=
  (sourceDirs entries).flatMap (fun src =>
    src.dates.flatMap (fun dp =>
      match dp.2 with
      | DateDirState.present dentries =>
          (dateDirEntries dentries).flatMap (fun w =>
            w.files.map (fun p =>
              (pathJoin [nfsRoot, src.name, dp.1, w.name, p.1], p.2)))
      | _ => []))

/-- Resolve an absolute path against the filesystem tree. -/
def resolvePath (nfsRoot : String) (entries : List RootEntry) (filePath : String) :
    FileNode :=
  match (allFiles nfsRoot entries).find? (fun p => p.1 == filePath) with
  | some p => p.2
  | none => FileNode.missing

/-- The line cap of `GetLogContent`: `maxLines == 0` means unbounded,
otherwise stop after `maxLines` lines. -/
def takeLimit (maxLines : Nat) (lines : List String) : List String :=
  if maxLines == 0 then lines else lines.take maxLines

/-- `GetLogContent` from `scanner.go`: open the file by path and read up
to `maxLines` lines (all of them when `maxLines` is `0`). -/
def GetLogContent (nfsRoot : String) (entries : List RootEntry)
    (filePath : String) (maxLines : Nat) : Except String (List String) :=
  match resolvePath nfsRoot entries filePath with
  | FileNode.ok data => Except.ok (takeLimit maxLines data.lines)
  | _ => Except.error ("open failed: " ++ filePath)

/-- `GetLogTail` from `scanner.go`: read the whole file, then return the
slice from `len - n` (or `0` when the file has at most `n` lines). -/
def GetLogTail (nfsRoot : String) (entries : List RootEntry)
    (filePath : String) (n : Nat) : Except String (List String) :=
  match GetLogContent nfsRoot entries filePath 0 with
  | Except.error e => Except.error e
  | Except.ok allLines =>
      let start := if allLines.length > n then allLines.length - n else 0
      Except.ok (allLines.drop start)

/-- Inner loop body of `SearchLogs`: read the first 1000 lines of the
entry's file (a read failure skips the file), look for the first line
containing the keyword case-insensitively, and record at most that one
line before moving to the next file. -/
def searchStep (nfsRoot : String) (entries : List RootEntry) (keyword : String)
    (results : List LogEntry) (logEntry : LogEntry) : List LogEntry :=
  match GetLogContent nfsRoot entries logEntry.filePath 1000 with
  | Except.error _ => results
  | Except.ok content =>
      match content.find? (fun line => goContains (goToLower line) (goToLower keyword)) with
      | some line => results ++ [{ logEntry with content := line }]
      | none => results

/-- `SearchLogs` from `scanner.go`. The Go method fixes the date to the
current calendar date via `ScanTodaysLogs`; the embedding passes that
ambient date explicitly as `today`. -/
def SearchLogs (nfsRoot : String) (root : Root) (today keyword : String) :
    Except String (List LogEntry) :=
  match root with
  | Root.unlistable => Except.error "failed to get source directories"
  | Root.ok entries =>
      match ScanLogsForDate nfsRoot (Root.ok entries) today with
      | Except.error e => Except.error e
      | Except.ok summaries =>
          Except.ok (summaries.foldl
            (fun results summary =>
              summary.logs.foldl (searchStep nfsRoot entries keyword) results)
            [])

/-- `ScanTodaysLogs` from `scanner.go`, with the ambient clock's date as
an explicit argument. -/
def ScanTodaysLogs (nfsRoot : String) (root : Root) (today : String) :
    Except String (List WorkflowSummary) :=
  ScanLogsForDate nfsRoot root today

/-! ## Order lemmas for the Go string comparison -/

theorem charListLt_irrefl : ∀ x, charListLt x x = false
  | [] => rfl
  | a :: as => by
      simp [charListLt, charListLt_irrefl as]

theorem charListLt_asymm : ∀ {x y : List Char},
    charListLt x y = true → charListLt y x = false
  | _, [], h => by simp [charListLt] at h
  | [], _ :: _, _ => rfl
  | a :: as, b :: bs, h => by
      simp [charListLt] at h ⊢
      rcases h with h | ⟨hab, h⟩
      · exact ⟨le_of_lt h, fun hba => absurd (hba ▸ h) (lt_irrefl b)⟩
      · subst hab
        exact ⟨le_refl a, fun _ => charListLt_asymm h⟩

theorem charListLt_trans : ∀ {x y z : List Char},
    charListLt x y = true → charListLt y z = true → charListLt x z = true
  | _, _, [], _, h2 => by simp [charListLt] at h2
  | _, [], _ :: _, h1, _ => by simp [charListLt] at h1
  | [], _ :: _, _ :: _, _, _ => rfl
  | a :: as, b :: bs, c :: cs, h1, h2 => by
      simp [charListLt] at h1 h2 ⊢
      rcases h1 with h1 | ⟨hab, h1⟩
      · rcases h2 with h2 | ⟨hbc, h2⟩
        · exact Or.inl (lt_trans h1 h2)
        · exact Or.inl (hbc ▸ h1)
      · subst hab
        rcases h2 with h2 | ⟨hbc, h2⟩
        · exact Or.inl h2
        · exact Or.inr ⟨hbc, charListLt_trans h1 h2⟩

theorem charListLt_connex : ∀ {x y : List Char},
    charListLt x y = false → charListLt y x = false → x = y
  | [], [], _, _ => rfl
  | [], _ :: _, h1, _ => by simp [charListLt] at h1
  | _ :: _, [], _, h2 => by simp [charListLt] at h2
  | a :: as, b :: bs, h1, h2 => by
      simp [charListLt] at h1 h2
      rcases lt_trichotomy a b with hlt | heq | hgt
      · exact absurd hlt (not_lt.mpr h1.1)
      · subst heq
        exact congrArg (a :: ·) (charListLt_connex (h1.2 rfl) (h2.2 rfl))
      · exact absurd hgt (not_lt.mpr h2.1)

theorem goStringLt_irrefl (s : String) : goStringLt s s = false :=
  charListLt_irrefl s.data

theorem goStringLt_asymm {a b : String} (h : goStringLt a b = true) :
    goStringLt b a = false :=
  charListLt_asymm h

theorem goStringLt_trans {a b c : String} (h1 : goStringLt a b = true)
    (h2 : goStringLt b c = true) : goStringLt a c = true :=
  charListLt_trans h1 h2

theorem goStringLt_connex {a b : String} (h1 : goStringLt a b = false)
    (h2 : goStringLt b a = false) : a = b :=
  String.ext (charListLt_connex h1 h2)

/-! ## Workflow-level characterizations -/

/-- An artifact name counts as found when its file exists and is
readable (a missing or unreadable artifact is skipped by the scan). -/
def foundFile (files : List (String × FileNode)) (t : String) : Bool :=
  match lookupFile files t with
  | FileNode.ok _ => true
  | _ => false

/-- Whether the artifact of kind `t` inside `files` signals an error. -/
def fileSignalsError (files : List (String × FileNode)) (t : String) : Bool :=
  match lookupFile files t with
  | FileNode.ok data => detectErrors data.lines t
  | _ => false

/-- Whether any discovered artifact of the workflow signals an error. -/
def dirSignalsError (w : WorkflowDir) : Bool :=
  logTypes.any (fileSignalsError w.files)

/-- The recognized artifact names found (readable) in the workflow. -/
def foundArtifacts (w : WorkflowDir) : List String :=
  logTypes.filter (foundFile w.files)

/-- Whether the run-summary artifact is found in the workflow. -/
def hasRunArtifact (w : WorkflowDir) : Bool :=
  foundFile w.files "run.log"

/-- The log entries produced by scanning a list of artifact names. -/
def scanEntries (nfsRoot source date wname : String)
    (files : List (String × FileNode)) : List String → List LogEntry
  | [] => []
  | t :: ts =>
      (match lookupFile files t with
       | FileNode.ok data => [scanLogFile nfsRoot source date wname t data]
       | _ => []) ++ scanEntries nfsRoot source date wname files ts

theorem scanFold_snd (nfsRoot source date wname : String)
    (files : List (String × FileNode)) :
    ∀ (ts : List String) (logs : List LogEntry) (b : Bool),
      (ts.foldl (scanStep nfsRoot source date wname files) (logs, b)).2 =
        (b || ts.any (fileSignalsError files))
  | [], logs, b => by simp
  | t :: ts, logs, b => by
      rw [List.foldl_cons, List.any_cons]
      cases hf : lookupFile files t with
      | missing =>
          rw [scanFold_snd nfsRoot source date wname files ts]
          simp [scanStep, hf, fileSignalsError]
      | unreadable =>
          rw [scanFold_snd nfsRoot source date wname files ts]
          simp [scanStep, hf, fileSignalsError]
      | ok data =>
          show ((ts.foldl _ (scanStep nfsRoot source date wname files (logs, b) t))).2 = _
          rw [scanFold_snd nfsRoot source date wname files ts]
          simp [scanStep, hf, fileSignalsError, scanLogFile, Bool.or_assoc]

theorem scanFold_fst (nfsRoot source date wname : String)
    (files : List (String × FileNode)) :
    ∀ (ts : List String) (logs : List LogEntry) (b : Bool),
      (ts.foldl (scanStep nfsRoot source date wname files) (logs, b)).1 =
        logs ++ scanEntries nfsRoot source date wname files ts
  | [], logs, b => by simp [scanEntries]
  | t :: ts, logs, b => by
      rw [List.foldl_cons]
      cases hf : lookupFile files t with
      | missing =>
          rw [scanFold_fst nfsRoot source date wname files ts]
          simp [scanStep, hf, scanEntries]
      | unreadable =>
          rw [scanFold_fst nfsRoot source date wname files ts]
          simp [scanStep, hf, scanEntries]
      | ok data =>
          show ((ts.foldl _ (scanStep nfsRoot source date wname files (logs, b) t))).1 = _
          rw [scanFold_fst nfsRoot source date wname files ts]
          simp [scanStep, hf, scanEntries]

theorem scanEntries_length (nfsRoot source date wname : String)
    (files : List (String × FileNode)) :
    ∀ ts : List String,
      (scanEntries nfsRoot source date wname files ts).length =
        (ts.filter (foundFile files)).length
  | [] => rfl
  | t :: ts => by
      cases hf : lookupFile files t with
      | missing =>
          rw [List.filter_cons]
          simp [scanEntries, hf, foundFile, scanEntries_length nfsRoot source date wname files ts]
      | unreadable =>
          rw [List.filter_cons]
          simp [scanEntries, hf, foundFile, scanEntries_length nfsRoot source date wname files ts]
      | ok data =>
          rw [List.filter_cons]
          simp [scanEntries, hf, foundFile, scanEntries_length nfsRoot source date wname files ts]

theorem scanEntries_any_logType (nfsRoot source date wname : String)
    (files : List (String × FileNode)) (s : String) :
    ∀ ts : List String,
      (scanEntries nfsRoot source date wname files ts).any
          (fun e => e.logType == s) =
        ts.any (fun t => foundFile files t && t == s)
  | [] => rfl
  | t :: ts => by
      cases hf : lookupFile files t with
      | missing =>
          simp [scanEntries, hf, foundFile,
            scanEntries_any_logType nfsRoot source date wname files s ts]
      | unreadable =>
          simp [scanEntries, hf, foundFile,
            scanEntries_any_logType nfsRoot source date wname files s ts]
      | ok data =>
          simp [scanEntries, hf, foundFile, scanLogFile,
            scanEntries_any_logType nfsRoot source date wname files s ts]

theorem scanEntries_any_hasErrors (nfsRoot source date wname : String)
    (files : List (String × FileNode)) :
    ∀ ts : List String,
      (scanEntries nfsRoot source date wname files ts).any (fun e => e.hasErrors) =
        ts.any (fileSignalsError files)
  | [] => rfl
  | t :: ts => by
      cases hf : lookupFile files t with
      | missing =>
          simp [scanEntries, hf, fileSignalsError,
            scanEntries_any_hasErrors nfsRoot source date wname files ts]
      | unreadable =>
          simp [scanEntries, hf, fileSignalsError,
            scanEntries_any_hasErrors nfsRoot source date wname files ts]
      | ok data =>
          simp [scanEntries, hf, fileSignalsError, scanLogFile,
            scanEntries_any_hasErrors nfsRoot source date wname files ts]

theorem scanWorkflow_logs (nfsRoot source date : String) (w : WorkflowDir) :
    (scanWorkflow nfsRoot source date w).logs =
      scanEntries nfsRoot source date w.name w.files logTypes := by
  unfold scanWorkflow
  simpa using scanFold_fst nfsRoot source date w.name w.files logTypes [] false

theorem scanWorkflow_hasErrors (nfsRoot source date : String) (w : WorkflowDir) :
    (scanWorkflow nfsRoot source date w).hasErrors = dirSignalsError w := by
  unfold scanWorkflow dirSignalsError
  simpa using scanFold_snd nfsRoot source date w.name w.files logTypes [] false

theorem scanWorkflow_status (nfsRoot source date : String) (w : WorkflowDir) :
    (scanWorkflow nfsRoot source date w).status =
      determineWorkflowStatus (scanWorkflow nfsRoot source date w) := by
  unfold scanWorkflow determineWorkflowStatus
  rfl

/-- C1: for every workflow directory scanned, the derived status follows
the precedence order: an error signal from any discovered artifact gives
"Failed"; otherwise zero discovered artifacts gives "No Logs"; otherwise
a present run-summary artifact gives "Completed"; otherwise the status is
"In Progress". In particular a workflow with both a run-summary log and
an error signal is "Failed", not "Completed". -/
theorem scanWorkflow_status_precedence (nfsRoot source date : String)
    (w : WorkflowDir) :
    (scanWorkflow nfsRoot source date w).status =
      (if dirSignalsError w then "Failed"
       else if foundArtifacts w = [] then "No Logs"
       else if hasRunArtifact w then "Completed"
       else "In Progress") := by
  rw [scanWorkflow_status]
  unfold determineWorkflowStatus
  rw [scanWorkflow_hasErrors, scanWorkflow_logs]
  cases hE : dirSignalsError w with
  | true => simp
  | false =>
      rw [scanEntries_length, scanEntries_any_logType]
      simp only [Bool.false_eq_true, if_neg Bool.false_ne_true]
      by_cases hA : List.filter (foundFile w.files) logTypes = []
      · simp [foundArtifacts, hA]
      · rw [if_neg (by simp [foundArtifacts, hA])]
        simp only [logTypes, List.any_cons, List.any_nil]
        simp [foundArtifacts, hasRunArtifact, hA, logTypes]

/-- C3: the aggregate error flag of every scanned workflow summary is
exactly the logical OR of the error flags of the artifacts it contains. -/
theorem scanWorkflow_hasErrors_is_any (nfsRoot source date : String)
    (w : WorkflowDir) :
    (scanWorkflow nfsRoot source date w).hasErrors =
      (scanWorkflow nfsRoot source date w).logs.any (fun e => e.hasErrors) := by
  rw [scanWorkflow_hasErrors, scanWorkflow_logs, scanEntries_any_hasErrors]
  rfl

/-- The adjacent-pair ordering of the spec: strictly increasing source, or
equal source and non-decreasing workflow, under the ordinal comparison. -/
def summaryOrdered (a b : WorkflowSummary) : Prop :=
  goStringLt a.source b.source = true ∨
    (a.source = b.source ∧ goStringLt b.workflow a.workflow = false)

theorem summaryLE_iff {a b : WorkflowSummary} :
    summaryLE a b = true ↔ summaryOrdered a b := by
  unfold summaryLE summaryLess summaryOrdered
  by_cases hs : b.source = a.source
  · have hbne : (b.source != a.source) = false := by simp [hs]
    rw [hbne]
    simp only [if_neg Bool.false_ne_true]
    constructor
    · intro h
      exact Or.inr ⟨hs.symm, by simpa using h⟩
    · rintro (h | ⟨-, h⟩)
      · rw [hs] at h
        rw [goStringLt_irrefl] at h
        cases h
      · simpa using h
  · have hbne : (b.source != a.source) = true := by simp [bne]; exact hs
    rw [hbne]
    simp only [if_pos rfl]
    constructor
    · intro h
      rcases Bool.eq_false_or_eq_true (goStringLt a.source b.source) with h' | h'
      · exact Or.inl h'
      · have hba : goStringLt b.source a.source = false := by simpa using h
        exact absurd (goStringLt_connex h' hba) (fun e => hs e.symm)
    · rintro (h | ⟨h, -⟩)
      · simpa using goStringLt_asymm h
      · exact absurd h.symm hs

theorem summaryLE_total (a b : WorkflowSummary) :
    summaryLE a b || summaryLE b a := by
  rcases Bool.eq_false_or_eq_true (summaryLess b a) with h | h
  · have : summaryLE b a = true := by
      unfold summaryLE
      unfold summaryLess at h ⊢
      by_cases hs : b.source = a.source
      · have hab : (a.source != b.source) = false := by simp [hs.symm]
        have hba : (b.source != a.source) = false := by simp [hs]
        rw [hba] at h
        rw [hab]
        simp only [if_neg Bool.false_ne_true] at h ⊢
        simpa using goStringLt_asymm (by simpa using h)
      · have hab : (a.source != b.source) = true := by
          simp [bne]; exact fun e => hs e.symm
        have hba : (b.source != a.source) = true := by simp [bne]; exact hs
        rw [hba] at h
        rw [hab]
        simp only [if_pos rfl] at h ⊢
        simpa using goStringLt_asymm (by simpa using h)
    rw [this, Bool.or_true]
  · have : summaryLE a b = true := by
      unfold summaryLE
      rw [h]
      rfl
    rw [this, Bool.true_or]

/-- The non-strict order `¬(b < a)` induced by the Go comparison is
transitive. -/
theorem goStringLt_le_trans {a b c : String} (h1 : goStringLt b a = false)
    (h2 : goStringLt c b = false) : goStringLt c a = false := by
  rcases Bool.eq_false_or_eq_true (goStringLt c a) with h | h
  · exfalso
    rcases Bool.eq_false_or_eq_true (goStringLt b c) with hbc | hbc
    · have : goStringLt b a = true := goStringLt_trans hbc h
      rw [this] at h1
      cases h1
    · have hb : b = c := goStringLt_connex hbc h2
      rw [hb] at h1
      rw [h] at h1
      cases h1
  · exact h

theorem summaryLE_trans (a b c : WorkflowSummary)
    (h1 : summaryLE a b) (h2 : summaryLE b c) : summaryLE a c := by
  rw [summaryLE_iff] at h1 h2 ⊢
  rcases h1 with h1 | ⟨hs1, h1⟩
  · rcases h2 with h2 | ⟨hs2, h2⟩
    · exact Or.inl (goStringLt_trans h1 h2)
    · exact Or.inl (hs2 ▸ h1)
  · rcases h2 with h2 | ⟨hs2, h2⟩
    · exact Or.inl (hs1 ▸ h2)
    · exact Or.inr ⟨hs1.trans hs2, goStringLt_le_trans h1 h2⟩

/-! ## Scan-level results -/

theorem sortSummaries_pairwise (l : List WorkflowSummary) :
    (sortSummaries l).Pairwise (fun a b => summaryLE a b = true) :=
  @List.sorted_mergeSort WorkflowSummary summaryLE summaryLE_trans summaryLE_total l

/-- C4: every scan result is sorted: each adjacent pair is strictly
increasing on source, or has equal sources and non-decreasing workflow
names, under ordinal string comparison. The ordering comes from the
explicit final sort, so it holds for every filesystem tree and hence
independently of traversal order. -/
theorem scan_result_sorted (nfsRoot : String) (root : Root) (date : String)
    (l : List WorkflowSummary)
    (h : ScanLogsForDate nfsRoot root date = Except.ok l) :
    List.Chain' summaryOrdered l := by
  cases root with
  | unlistable => simp [ScanLogsForDate] at h
  | ok entries =>
      have hl : sortSummaries ((sourceDirs entries).foldl (sourceStep nfsRoot date) []) = l := by
        simpa [ScanLogsForDate] using h
      rw [← hl]
      exact ((sortSummaries_pairwise _).imp (fun hab => summaryLE_iff.mp hab)).chain'

/-- A root entry survives the bad-source filter when it is a plain file
(ignored by the scan anyway) or a source whose per-date scan succeeds. -/
def keepGoodSources (nfsRoot date : String) (e : RootEntry) : Bool :=
  match e with
  | RootEntry.file _ => true
  | RootEntry.dir s => (scanSourceForDate nfsRoot s date).isOk

theorem foldl_sourceStep_filter (nfsRoot date : String) :
    ∀ (srcs : List SourceDir) (acc : List WorkflowSummary),
      srcs.foldl (sourceStep nfsRoot date) acc =
        (srcs.filter (fun s => (scanSourceForDate nfsRoot s date).isOk)).foldl
          (sourceStep nfsRoot date) acc
  | [], acc => rfl
  | s :: srcs, acc => by
      rw [List.filter_cons]
      cases hs : scanSourceForDate nfsRoot s date with
      | error e =>
          simp only [Except.isOk, Except.toBool, Bool.false_eq_true,
            if_neg Bool.false_ne_true, List.foldl_cons]
          have hstep : sourceStep nfsRoot date acc s = acc := by
            unfold sourceStep
            rw [hs]
          rw [hstep]
          exact foldl_sourceStep_filter nfsRoot date srcs acc
      | ok ss =>
          simp only [Except.isOk, Except.toBool, if_pos rfl, List.foldl_cons]
          exact foldl_sourceStep_filter nfsRoot date srcs _

theorem sourceDirs_filter_good (nfsRoot date : String) :
    ∀ entries : List RootEntry,
      sourceDirs (entries.filter (keepGoodSources nfsRoot date)) =
        (sourceDirs entries).filter (fun s => (scanSourceForDate nfsRoot s date).isOk)
  | [] => rfl
  | RootEntry.file f :: entries => by
      rw [List.filter_cons]
      simp only [keepGoodSources, if_pos rfl]
      simp only [sourceDirs, List.filterMap_cons]
      exact sourceDirs_filter_good nfsRoot date entries
  | RootEntry.dir s :: entries => by
      rw [List.filter_cons]
      simp only [keepGoodSources]
      rcases Bool.eq_false_or_eq_true ((scanSourceForDate nfsRoot s date).isOk)
        with hs | hs
      · rw [if_pos hs]
        simp only [sourceDirs, List.filterMap_cons]
        rw [List.filter_cons]
        simp only [hs, if_pos rfl]
        exact congrArg (s :: ·) (sourceDirs_filter_good nfsRoot date entries)
      · rw [if_neg (by rw [hs]; exact Bool.false_ne_true)]
        simp only [sourceDirs, List.filterMap_cons]
        rw [List.filter_cons]
        simp only [hs, Bool.false_eq_true, if_neg Bool.false_ne_true]
        exact sourceDirs_filter_good nfsRoot date entries

/-- C5: a scan never fails wholesale because of one bad source. The
top-level call errors exactly when the root cannot be listed; on a
listable root it always returns a result, and that result is unchanged
when every source whose workflow enumeration fails is removed — such a
source contributes zero runs while the others are still scanned. -/
theorem scan_isolates_bad_sources (nfsRoot date : String) :
    (ScanLogsForDate nfsRoot Root.unlistable date =
        Except.error "failed to get source directories") ∧
    (∀ entries : List RootEntry,
        (ScanLogsForDate nfsRoot (Root.ok entries) date).isOk = true) ∧
    (∀ entries : List RootEntry,
        ScanLogsForDate nfsRoot (Root.ok entries) date =
          ScanLogsForDate nfsRoot
            (Root.ok (entries.filter (keepGoodSources nfsRoot date))) date) := by
  refine ⟨rfl, fun entries => rfl, fun entries => ?_⟩
  show Except.ok _ = Except.ok _
  rw [sourceDirs_filter_good nfsRoot date entries,
    ← foldl_sourceStep_filter nfsRoot date (sourceDirs entries) []]

/-- C7: a source whose date-partition directory does not exist for the
requested date yields an empty result and no error. -/
theorem scanSource_missing_date_empty (nfsRoot : String) (src : SourceDir)
    (date : String) (h : lookupDate src.dates date = DateDirState.missing) :
    scanSourceForDate nfsRoot src date = Except.ok [] := by
  unfold scanSourceForDate
  rw [h]

/-- Witness: a source with no date partitions at all scans to the empty
result for any date. -/
theorem scanSource_missing_date_empty_witness :
    scanSourceForDate "root" ⟨"alpha", []⟩ "2025-01-10" = Except.ok [] :=
  scanSource_missing_date_empty "root" ⟨"alpha", []⟩ "2025-01-10" rfl

theorem sortSummaries_pair (a b : WorkflowSummary) :
    sortSummaries [a, b] = if summaryLE a b then [a, b] else [b, a] := by
  unfold sortSummaries
  simp only [List.mergeSort]
  by_cases h : summaryLE a b = true
  · simp [List.splitInTwo, List.merge, h]
  · simp [List.splitInTwo, List.merge, h]

/-! ## Concrete filesystem fixtures -/

/-- A workflow holding one clean general log. -/
def wfAlpha : WorkflowDir :=
  ⟨"wf-a", [("info.log", FileNode.ok ⟨["all good"], 8, 0⟩)]⟩

/-- A workflow holding one clean run-summary log. -/
def wfBeta : WorkflowDir :=
  ⟨"wf-b", [("run.log", FileNode.ok ⟨["done"], 4, 0⟩)]⟩

def srcAlpha : SourceDir :=
  ⟨"alpha", [("2025-01-10", DateDirState.present [DateEntry.dir wfAlpha])]⟩

def srcBeta : SourceDir :=
  ⟨"beta", [("2025-01-10", DateDirState.present [DateEntry.dir wfBeta])]⟩

def pairEntries : List RootEntry :=
  [RootEntry.dir srcAlpha, RootEntry.dir srcBeta]

/-- The summary the scan derives for `wfAlpha` under source `alpha`. -/
def sumAlpha : WorkflowSummary :=
  { source := "alpha", date := "2025-01-10", workflow := "wf-a"
    logs := [{ source := "alpha", date := "2025-01-10", workflow := "wf-a"
               logType := "info.log", content := "", hasErrors := false
               filePath := "root/alpha/2025-01-10/wf-a/info.log"
               size := 8, modTime := 0 }]
    hasErrors := false, status := "In Progress" }

/-- The summary the scan derives for `wfBeta` under source `beta`. -/
def sumBeta : WorkflowSummary :=
  { source := "beta", date := "2025-01-10", workflow := "wf-b"
    logs := [{ source := "beta", date := "2025-01-10", workflow := "wf-b"
               logType := "run.log", content := "", hasErrors := false
               filePath := "root/beta/2025-01-10/wf-b/run.log"
               size := 4, modTime := 0 }]
    hasErrors := false, status := "Completed" }

theorem pairEntries_base :
    (sourceDirs pairEntries).foldl (sourceStep "root" "2025-01-10") [] =
      [sumAlpha, sumBeta] := by
  rfl

theorem pairScan_eq :
    ScanLogsForDate "root" (Root.ok pairEntries) "2025-01-10" =
      Except.ok [sumAlpha, sumBeta] := by
  show Except.ok (sortSummaries
    ((sourceDirs pairEntries).foldl (sourceStep "root" "2025-01-10") [])) = _
  rw [pairEntries_base, sortSummaries_pair,
    if_pos (by decide : summaryLE sumAlpha sumBeta = true)]

/-- Witness: on a two-source fixture the scan returns the two summaries
in sorted order, and the adjacent pair satisfies the ordering. -/
theorem scan_result_sorted_witness :
    List.Chain' summaryOrdered [sumAlpha, sumBeta] :=
  scan_result_sorted "root" (Root.ok pairEntries) "2025-01-10" [sumAlpha, sumBeta]
    pairScan_eq

/-! ## Status-range invariant -/

theorem determineWorkflowStatus_cases (s : WorkflowSummary) :
    determineWorkflowStatus s = "Failed" ∨ determineWorkflowStatus s = "No Logs" ∨
      determineWorkflowStatus s = "Completed" ∨
      determineWorkflowStatus s = "In Progress" := by
  simp only [determineWorkflowStatus]
  by_cases h1 : s.hasErrors = true
  · rw [if_pos h1]
    exact Or.inl rfl
  · rw [if_neg h1]
    by_cases h2 : (s.logs.length == 0) = true
    · rw [if_pos h2]
      exact Or.inr (Or.inl rfl)
    · rw [if_neg h2]
      by_cases h3 : ((s.logs.any fun log => log.logType == "run.log") && !s.hasErrors) = true
      · rw [if_pos h3]
        exact Or.inr (Or.inr (Or.inl rfl))
      · rw [if_neg h3]
        exact Or.inr (Or.inr (Or.inr rfl))

theorem scanSourceForDate_mem (nfsRoot : String) (src : SourceDir) (date : String)
    (ss : List WorkflowSummary) (t : WorkflowSummary)
    (hok : scanSourceForDate nfsRoot src date = Except.ok ss) (ht : t ∈ ss) :
    ∃ w, t = scanWorkflow nfsRoot src.name date w := by
  unfold scanSourceForDate at hok
  cases hd : lookupDate src.dates date with
  | missing =>
      rw [hd] at hok
      cases hok
      cases ht
  | unlistable =>
      rw [hd] at hok
      cases hok
  | present entries =>
      rw [hd] at hok
      cases hok
      rcases List.mem_map.mp ht with ⟨w, -, hw⟩
      exact ⟨w, hw.symm⟩

theorem foldl_sourceStep_mem (nfsRoot date : String) :
    ∀ (srcs : List SourceDir) (acc : List WorkflowSummary) (t : WorkflowSummary),
      t ∈ srcs.foldl (sourceStep nfsRoot date) acc →
        t ∈ acc ∨ ∃ (src : SourceDir) (w : WorkflowDir),
          t = scanWorkflow nfsRoot src.name date w
  | [], acc, t, ht => Or.inl ht
  | s :: srcs, acc, t, ht => by
      rw [List.foldl_cons] at ht
      rcases foldl_sourceStep_mem nfsRoot date srcs (sourceStep nfsRoot date acc s) t ht
        with hacc | hrest
      · unfold sourceStep at hacc
        cases hs : scanSourceForDate nfsRoot s date with
        | error e =>
            rw [hs] at hacc
            exact Or.inl hacc
        | ok ss =>
            rw [hs] at hacc
            rcases List.mem_append.mp hacc with h | h
            · exact Or.inl h
            · rcases scanSourceForDate_mem nfsRoot s date ss t hs h with ⟨w, hw⟩
              exact Or.inr ⟨s, w, hw⟩
      · exact Or.inr hrest

/-- C10: every summary in any scan result carries one of exactly the four
statuses "Failed", "No Logs", "Completed", "In Progress"; the internal
initialization value "Unknown" never survives to the returned result. -/
theorem scan_status_valid (nfsRoot : String) (root : Root) (date : String)
    (l : List WorkflowSummary) (h : ScanLogsForDate nfsRoot root date = Except.ok l) :
    ∀ s ∈ l,
      (s.status = "Failed" ∨ s.status = "No Logs" ∨ s.status = "Completed" ∨
        s.status = "In Progress") ∧ s.status ≠ "Unknown" := by
  intro s hs
  cases root with
  | unlistable => simp [ScanLogsForDate] at h
  | ok entries =>
      have hl : sortSummaries ((sourceDirs entries).foldl (sourceStep nfsRoot date) []) = l := by
        simpa [ScanLogsForDate] using h
      rw [← hl] at hs
      unfold sortSummaries at hs
      rw [List.mem_mergeSort] at hs
      rcases foldl_sourceStep_mem nfsRoot date (sourceDirs entries) [] s hs with hnil | ⟨src, w, hw⟩
      · cases hnil
      · have hst : s.status = determineWorkflowStatus (scanWorkflow nfsRoot src.name date w) := by
          rw [hw]
          exact scanWorkflow_status nfsRoot src.name date w
        have hcases := determineWorkflowStatus_cases (scanWorkflow nfsRoot src.name date w)
        rw [← hst] at hcases
        refine ⟨hcases, ?_⟩
        rcases hcases with h' | h' | h' | h' <;> rw [h'] <;> decide

/-- Witness: the two-source fixture scan yields summaries whose statuses
are among the four values and are not "Unknown". -/
theorem scan_status_valid_witness :
    (sumAlpha.status = "Failed" ∨ sumAlpha.status = "No Logs" ∨
      sumAlpha.status = "Completed" ∨ sumAlpha.status = "In Progress") ∧
      sumAlpha.status ≠ "Unknown" :=
  scan_status_valid "root" (Root.ok pairEntries) "2025-01-10" [sumAlpha, sumBeta]
    pairScan_eq sumAlpha (List.mem_cons_self _ _)

/-! ## Content accessor results -/

/-- C9: `GetLogTail` returns the last `n` lines of the file in original
file order (the suffix from index `length - n`), and in particular all
lines, unchanged, when the file has fewer than `n` lines. -/
theorem getLogTail_last_lines (nfsRoot : String) (entries : List RootEntry)
    (filePath : String) (n : Nat) (allLines : List String)
    (h : GetLogContent nfsRoot entries filePath 0 = Except.ok allLines) :
    GetLogTail nfsRoot entries filePath n =
        Except.ok (allLines.drop (allLines.length - n)) ∧
      (allLines.length < n →
        GetLogTail nfsRoot entries filePath n = Except.ok allLines) := by
  have h1 : GetLogTail nfsRoot entries filePath n =
      Except.ok (allLines.drop
        (if allLines.length > n then allLines.length - n else 0)) := by
    unfold GetLogTail
    rw [h]
  constructor
  · rw [h1]
    by_cases hlen : allLines.length > n
    · rw [if_pos hlen]
    · rw [if_neg hlen]
      rw [Nat.sub_eq_zero_of_le (Nat.le_of_not_lt hlen)]
  · intro hlt
    rw [h1]
    rw [if_neg (by omega)]
    rw [List.drop_zero]

/-- Witness: the fixture's single-line general log, tailed with `n = 5`,
comes back whole and in order. -/
theorem getLogTail_last_lines_witness :
    (GetLogTail "root" pairEntries "root/alpha/2025-01-10/wf-a/info.log" 5 =
        Except.ok ((["all good"] : List String).drop
          ((["all good"] : List String).length - 5)) ∧
      ((["all good"] : List String).length < 5 →
        GetLogTail "root" pairEntries "root/alpha/2025-01-10/wf-a/info.log" 5 =
          Except.ok ["all good"])) :=
  getLogTail_last_lines "root" pairEntries "root/alpha/2025-01-10/wf-a/info.log"
    5 ["all good"] rfl

/-- The full line list behind a path, empty when the file is missing or
unreadable (in which case the search skips it). -/
def fullLines (nfsRoot : String) (entries : List RootEntry) (path : String) :
    List String :=
  match resolvePath nfsRoot entries path with
  | FileNode.ok data => data.lines
  | _ => []

/-- What the keyword search records for one artifact: the first line of
the file's first 1000 lines that contains the keyword
case-insensitively, copied into the entry's content — or nothing. -/
def searchHit (nfsRoot : String) (entries : List RootEntry) (keyword : String)
    (e : LogEntry) : Option LogEntry :=
  (((fullLines nfsRoot entries e.filePath).take 1000).find?
      (fun line => goContains (goToLower line) (goToLower keyword))).map
    (fun line => { e with content := line })

theorem searchStep_eq (nfsRoot : String) (entries : List RootEntry)
    (keyword : String) (results : List LogEntry) (e : LogEntry) :
    searchStep nfsRoot entries keyword results e =
      results ++ (searchHit nfsRoot entries keyword e).toList := by
  unfold searchStep searchHit fullLines GetLogContent
  cases hr : resolvePath nfsRoot entries e.filePath with
  | missing => simp
  | unreadable => simp
  | ok data =>
      show (match (((takeLimit 1000 data.lines)).find?
          (fun line => goContains (goToLower line) (goToLower keyword))) with
        | some line => results ++ [{ e with content := line }]
        | none => results) = _
      unfold takeLimit
      simp only [if_neg (by decide : ¬((1000 : Nat) == 0) = true)]
      cases hf : (data.lines.take 1000).find?
          (fun line => goContains (goToLower line) (goToLower keyword)) with
      | none => simp
      | some line => simp

theorem foldl_searchStep (nfsRoot : String) (entries : List RootEntry)
    (keyword : String) :
    ∀ (logs : List LogEntry) (results : List LogEntry),
      logs.foldl (searchStep nfsRoot entries keyword) results =
        results ++ logs.filterMap (searchHit nfsRoot entries keyword)
  | [], results => by simp
  | e :: logs, results => by
      rw [List.foldl_cons, foldl_searchStep nfsRoot entries keyword logs,
        searchStep_eq, List.filterMap_cons]
      cases searchHit nfsRoot entries keyword e with
      | none => simp
      | some hit => simp

theorem foldl_search_outer (nfsRoot : String) (entries : List RootEntry)
    (keyword : String) :
    ∀ (summaries : List WorkflowSummary) (results : List LogEntry),
      summaries.foldl
          (fun results summary =>
            summary.logs.foldl (searchStep nfsRoot entries keyword) results)
          results =
        results ++ (summaries.flatMap (fun s => s.logs)).filterMap
          (searchHit nfsRoot entries keyword)
  | [], results => by simp
  | s :: summaries, results => by
      rw [List.foldl_cons, foldl_search_outer nfsRoot entries keyword summaries,
        foldl_searchStep, List.flatMap_cons, List.filterMap_append]
      rw [List.append_assoc]

/-- C8: the keyword search runs the scan for the given date and then, for
every artifact of every resulting workflow run, records at most the first
line among the file's first 1000 lines that contains the keyword
case-insensitively — one hit per file at most, after which the file is
not searched further. -/
theorem searchLogs_spec (nfsRoot : String) (entries : List RootEntry)
    (today keyword : String) (summaries : List WorkflowSummary)
    (R : List LogEntry)
    (hscan : ScanLogsForDate nfsRoot (Root.ok entries) today = Except.ok summaries)
    (h : SearchLogs nfsRoot (Root.ok entries) today keyword = Except.ok R) :
    R = (summaries.flatMap (fun s => s.logs)).filterMap
      (searchHit nfsRoot entries keyword) := by
  simp only [SearchLogs] at h
  rw [hscan] at h
  replace h : Except.ok (summaries.foldl
      (fun results summary =>
        summary.logs.foldl (searchStep nfsRoot entries keyword) results) []) =
      Except.ok R := h
  rw [foldl_search_outer] at h
  rw [List.nil_append] at h
  exact (Except.ok.inj h).symm

/-- The single hit expected when searching the fixture for "GOOD": the
general log's first (and only) line, matched case-insensitively. -/
def hitAlpha : LogEntry :=
  { source := "alpha", date := "2025-01-10", workflow := "wf-a"
    logType := "info.log", content := "all good", hasErrors := false
    filePath := "root/alpha/2025-01-10/wf-a/info.log", size := 8, modTime := 0 }

/-- Witness: searching the two-artifact fixture for "GOOD" yields exactly
one hit, carrying the first matching line of the matching file. -/
theorem searchLogs_spec_witness :
    ([hitAlpha] : List LogEntry) =
      (([sumAlpha, sumBeta] : List WorkflowSummary).flatMap
          (fun s => s.logs)).filterMap (searchHit "root" pairEntries "GOOD") :=
  searchLogs_spec "root" pairEntries "2025-01-10" "GOOD" [sumAlpha, sumBeta]
    [hitAlpha] pairScan_eq
    (by
      simp only [SearchLogs]
      rw [pairScan_eq]
      rfl)

/-! ## Error-log classification and caller-input handling -/

/-- C2: the code classifies an error-log by its first line only: a
dedicated error-log whose first line is blank but whose second line
carries content is classified as signalling no error, although the file
contains non-whitespace content (and the code's own comment says any
content indicates errors). An empty error-log signals no error, as the
claim states. -/
theorem detectErrors_errorLog_first_line_only :
    detectErrors ["", "ERROR: disk full"] "error.log" = false ∧
      (["", "ERROR: disk full"].any
        (fun line => !(goTrimSpace line == ""))) = true ∧
      detectErrors [] "error.log" = false := by
  decide

/-- C6 counterexample: caller input errors are not rejected. A malformed
date string flows into path lookup and the scan succeeds (with an empty
result) instead of failing; an empty search keyword is accepted and even
matches every readable artifact instead of being rejected. -/
theorem callerInput_not_rejected :
    ScanLogsForDate "root" (Root.ok pairEntries) "99-99-9999" =
        Except.ok [] ∧
      (SearchLogs "root" (Root.ok pairEntries) "2025-01-10" "").isOk = true ∧
      SearchLogs "root" (Root.ok pairEntries) "2025-01-10" "" ≠
        Except.ok [] := by
  have hsearch : SearchLogs "root" (Root.ok pairEntries) "2025-01-10" "" =
      Except.ok [hitAlpha,
        { source := "beta", date := "2025-01-10", workflow := "wf-b"
          logType := "run.log", content := "done", hasErrors := false
          filePath := "root/beta/2025-01-10/wf-b/run.log"
          size := 4, modTime := 0 }] := by
    simp only [SearchLogs]
    rw [pairScan_eq]
    rfl
  refine ⟨?_, ?_, ?_⟩
  · show Except.ok (sortSummaries
      ((sourceDirs pairEntries).foldl (sourceStep "root" "99-99-9999") [])) = _
    rw [show (sourceDirs pairEntries).foldl (sourceStep "root" "99-99-9999") [] =
      ([] : List WorkflowSummary) from rfl]
    simp [sortSummaries]
  · rw [hsearch]
    rfl
  · rw [hsearch]
    intro hcontra
    have := Except.ok.inj hcontra
    simp at this

/-- C6 as amended: the code performs no caller-input validation at all.
A scan accepts every date string, malformed or not, and returns a
successful (best-effort, possibly empty) result whenever the root is
listable; a search likewise accepts every keyword — including the empty
string, which matches every line because the case-insensitive substring
test is vacuously true for an empty needle. -/
theorem callerInput_accepted (nfsRoot today date keyword : String)
    (entries : List RootEntry) :
    (ScanLogsForDate nfsRoot (Root.ok entries) date).isOk = true ∧
      (SearchLogs nfsRoot (Root.ok entries) today keyword).isOk = true ∧
      (∀ line : String, goContains (goToLower line) (goToLower "") = true) := by
  refine ⟨rfl, rfl, fun line => ?_⟩
  show hasSubstrList [] (goToLower line).data = true
  cases (goToLower line).data with
  | nil => rfl
  | cons c cs => simp [hasSubstrList, hasPrefixList]

end Salam
